import Mathlib

/-!
Verification of the `extended-log-go` logging library (package `log`).

The Go sources are shallowly embedded below.  Go strings and byte slices are
modelled as `List Char` (all relevant data is ASCII); `slog` levels are the
integers used by the standard library (`Debug = -4`, `Info = 0`, `Warn = 4`,
`Error = 8`); records created by this library only ever carry the four
levels `debug/info/warn/error`, captured by the enumeration `GoLevel`.
Wall-clock instants are seconds since the Unix epoch (`Int`); the configured
location is modelled as a fixed offset (no DST transitions).
-/

namespace ExtLog

/-- Go `string` / `[]byte` contents, as a list of characters. -/
abbrev Str := List Char

/-! ## Decimal rendering helpers (for `fmt` verbs `%d`, `%02d`, ...) -/

/-- The character for a single decimal digit `n < 10`. -/
def digitChar (n : Nat) : Char := Char.ofNat (48 + n)

/-- Decimal digits of `n`, most significant first; fuel-driven so that it is
structurally recursive (the fuel `n + 1` always suffices). -/
def natDigitsAux : Nat → Nat → Str
  | 0, _ => []
  | fuel + 1, n =>
    if n < 10 then [digitChar n]
    else natDigitsAux fuel (n / 10) ++ [digitChar (n % 10)]

/-- Decimal representation of a natural number. -/
def natDigits (n : Nat) : Str := natDigitsAux (n + 1) n

/-- Zero-padded decimal rendering to width `w` (Go `fmt` verb `%0wd`). -/
def padZero (w n : Nat) : Str :=
  List.replicate (w - (natDigits n).length) '0' ++ natDigits n

/-! ## Levels

`slog.Level` is an integer; `Level.String()` on the four standard values
returns `DEBUG`, `INFO`, `WARN`, `ERROR` (already upper case, so the
`strings.ToUpper` in the handlers is the identity on them). -/

/-- The four record levels this library emits (`log/slog` standard levels). -/
inductive GoLevel
  | debug
  | info
  | warn
  | error
deriving DecidableEq

/-- Numeric value of a level (`slog.LevelDebug = -4`, etc.). -/
def GoLevel.toInt : GoLevel → Int
  | .debug => -4
  | .info => 0
  | .warn => 4
  | .error => 8

/-- `strings.ToUpper(r.Level.String())` for the four standard levels. -/
def levelString : GoLevel → Str
  | .debug => ['D', 'E', 'B', 'U', 'G']
  | .info => ['I', 'N', 'F', 'O']
  | .warn => ['W', 'A', 'R', 'N']
  | .error => ['E', 'R', 'R', 'O', 'R']

/-- Go `fmt.Sprintf("%-5s", s)`: left-justified padding to width 5. -/
def pad5 (s : Str) : Str := s ++ List.replicate (5 - s.length) ' '

/-! ## Level gate (`ConsoleHandler.Enabled`, `FileHandler.Enabled`)

Both handlers are constructed with the same shared `logLevel` variable and
both implement `Enabled` as `level >= h.level.Level()`. -/

/-- `ConsoleHandler.Enabled`: `level >= h.level.Level()`. -/
def consoleEnabled (threshold level : Int) : Bool := decide (level ≥ threshold)

/-- `FileHandler.Enabled`: `level >= h.level.Level()`. -/
def fileEnabled (threshold level : Int) : Bool := decide (level ≥ threshold)

/-! ## Formatting (`ConsoleHandler.Handle`, `FileHandler.Handle`) -/

/-- A wall-clock timestamp already broken into the fields that the Go layout
`"02.01.2006 15:04:05.000"` renders. -/
structure DateTime where
  year : Nat
  month : Nat
  day : Nat
  hour : Nat
  minute : Nat
  second : Nat
  ms : Nat

/-- `r.Time.In(location).Format("02.01.2006 15:04:05.000")`. -/
def formatTimestamp (t : DateTime) : Str :=
  padZero 2 t.day ++ ['.'] ++ padZero 2 t.month ++ ['.'] ++ padZero 4 t.year ++
  [' '] ++ padZero 2 t.hour ++ [':'] ++ padZero 2 t.minute ++ [':'] ++
  padZero 2 t.second ++ ['.'] ++ padZero 3 t.ms

/-- ANSI color prefix chosen by `ConsoleHandler.Handle`'s `switch` on the
record level: debug has none, warn is yellow `\e[33m`, error is red
`\e[31m`, and the `default` branch (info) is cyan `\e[36m`. -/
def levelColor : GoLevel → Str
  | .debug => []
  | .warn => ['\x1b', '[', '3', '3', 'm']
  | .error => ['\x1b', '[', '3', '1', 'm']
  | .info => ['\x1b', '[', '3', '6', 'm']

/-- The ANSI reset sequence `\e[0m`. -/
def ansiReset : Str := ['\x1b', '[', '0', 'm']

/-- The level token as printed by the console handler: padded to five
characters and, when the level has a color, wrapped in color and reset. -/
def consoleLevelText (lvl : GoLevel) : Str :=
  let t := pad5 (levelString lvl)
  if levelColor lvl = [] then t else levelColor lvl ++ t ++ ansiReset

/-- The common line layout of both handlers:
`"%s | %s | [%s] %s\n"` when the caller is shown, `"%s | %s | %s\n"`
otherwise. -/
def renderLine (ts levelText : Str) (showCaller : Bool) (caller msg : Str) : Str :=
  if showCaller then
    ts ++ [' ', '|', ' '] ++ levelText ++ [' ', '|', ' ', '['] ++ caller ++
      [']', ' '] ++ msg ++ ['\n']
  else
    ts ++ [' ', '|', ' '] ++ levelText ++ [' ', '|', ' '] ++ msg ++ ['\n']

/-- The line built by `ConsoleHandler.Handle` (colored level token). -/
def consoleHandleLine (t : DateTime) (lvl : GoLevel) (showCaller : Bool)
    (caller msg : Str) : Str :=
  renderLine (formatTimestamp t) (consoleLevelText lvl) showCaller caller msg

/-- The line built by `FileHandler.Handle` (plain padded level token). -/
def fileHandleLine (t : DateTime) (lvl : GoLevel) (showCaller : Bool)
    (caller msg : Str) : Str :=
  renderLine (formatTimestamp t) (pad5 (levelString lvl)) showCaller caller msg

/-! ## ANSI stripping

Removal of ANSI SGR escape sequences (`ESC [ ... m`): on seeing `ESC`,
everything up to and including the next `m` is dropped. -/

/-- One-pass stripper; the flag records being inside an escape sequence. -/
def stripAnsiAux : Bool → Str → Str
  | _, [] => []
  | true, c :: cs => if c = 'm' then stripAnsiAux false cs else stripAnsiAux true cs
  | false, c :: cs =>
    if c = '\x1b' then stripAnsiAux true cs else c :: stripAnsiAux false cs

/-- Remove all ANSI escape sequences from a string. -/
def stripAnsi (l : Str) : Str := stripAnsiAux false l

/-- `l` contains no ESC character (so stripping cannot touch it). -/
abbrev noEsc (l : Str) : Prop := ∀ c ∈ l, c ≠ '\x1b'

/-- `l` contains no newline character. -/
abbrev noNl (l : Str) : Prop := ∀ c ∈ l, c ≠ '\n'

/-- Number of newline characters in a string. -/
def countNl (l : Str) : Nat := l.countP (fun c => c = '\n')

/-! ## Writer adapters and `*Fprintf` functions (`logger.go`) -/

/-- Result pair of a Go `Write`/`Fprintf`-style call. -/
structure WriteResult where
  n : Nat
  err : Option String
deriving DecidableEq

/-- `logWriter.Write`: forwards `string(p)` to the level's log function and
returns `(len(p), nil)`.  The first component is the emitted record
(level, message bytes). -/
def logWriterWrite (lvl : GoLevel) (p : List UInt8) :
    (GoLevel × List UInt8) × WriteResult :=
  ((lvl, p), ⟨p.length, none⟩)

/-- `ErrorFprintf`/`WarnFprintf`/`InfoFprintf`/`DebugFprintf`: format the
message, log it at the level, and return `(len(msg), nil)`.  `msg` stands
for the already-formatted `fmt.Sprintf` result. -/
def levelFprintf (lvl : GoLevel) (msg : List UInt8) :
    (GoLevel × List UInt8) × WriteResult :=
  ((lvl, msg), ⟨msg.length, none⟩)

/-! ## Public API level mapping (`logger.go`) -/

/-- The public level-tagged entry points of the package. -/
inductive ApiCall
  | fatal
  | fatalf
  | errCall
  | errfCall
  | errlnCall
  | warnCall
  | warnfCall
  | infoCall
  | infofCall
  | debugCall
  | debugfCall
  | printlnCall
  | printfCall
  | traceCall
  | tracefCall
deriving DecidableEq

/-- The slog level each public function logs at: `Fatal`/`Fatalf` call
`logger.Error`, `Trace`/`Tracef` call `logger.Debug`, `Println`/`Printf`
call `logger.Info`, and the rest use their own level. -/
def emittedLevel : ApiCall → GoLevel
  | .fatal => .error
  | .fatalf => .error
  | .errCall => .error
  | .errfCall => .error
  | .errlnCall => .error
  | .warnCall => .warn
  | .warnfCall => .warn
  | .infoCall => .info
  | .infofCall => .info
  | .printlnCall => .info
  | .printfCall => .info
  | .debugCall => .debug
  | .debugfCall => .debug
  | .traceCall => .debug
  | .tracefCall => .debug

/-! ## Dispatcher (`MultiHandler.Handle`)

`MultiHandler.Handle` iterates over its handlers in order; for each enabled
handler it calls `Handle` and, on a non-nil error, returns that error
immediately.  A handler is abstracted by its `Enabled` answer per level and
the error its `Handle` returns when invoked. -/

/-- Abstraction of one `slog.Handler` as seen by `MultiHandler.Handle`. -/
structure SimHandler where
  enabledAt : Int → Bool
  handleErr : Option String

/-- `MultiHandler.Handle` on a record at level `lvl`: returns the positions
(0-based) of the handlers whose `Handle` was invoked, and the error
returned to the caller. -/
def multiHandle : List SimHandler → Int → List Nat × Option String
  | [], _ => ([], none)
  | h :: rest, lvl =>
    if h.enabledAt lvl then
      match h.handleErr with
      | some e => ([0], some e)
      | none =>
        let p := multiHandle rest lvl
        (0 :: p.1.map (· + 1), p.2)
    else
      let p := multiHandle rest lvl
      (p.1.map (· + 1), p.2)

/-! ## File sink state (`FileHandler.ensureLogFile`, `FileHandler.Handle`)

The filesystem is abstracted by outcome flags for the operations
`ensureLogFile` performs.  A `*os.File` value is its name plus whether the
underlying handle has been closed; `Stat` and `Write` on a closed handle
fail (`os.ErrClosed`), as does a second `Close`.  Writes to an open file
are assumed to succeed (device errors are out of scope). -/

/-- An `*os.File` reference held by the handler. -/
structure GoFile where
  name : Str
  closed : Bool
deriving DecidableEq

/-- The mutable state of a `FileHandler` (`h.file`, nil or a reference). -/
structure FHState where
  file : Option GoFile
deriving DecidableEq

/-- Outcomes of the filesystem calls made during one `ensureLogFile` run. -/
structure FsEnv where
  statFails : Bool
  closeFails : Bool
  mkdirFails : Bool
  openFails : Bool
deriving DecidableEq

/-- Tail of `ensureLogFile` after the open-file check: `os.MkdirAll` (on
failure report to stderr and return), retention cleanup, then `os.OpenFile`
(on failure report to stderr and return); on success `h.file` is set to the
newly opened file.  The second component counts stderr reports. -/
def ensureRest (env : FsEnv) (st : FHState) (todayName : Str) : FHState × Nat :=
  if env.mkdirFails then (st, 1)
  else if env.openFails then (st, 1)
  else (⟨some ⟨todayName, false⟩⟩, 0)

/-- `FileHandler.ensureLogFile`: if a file is held and `Stat` succeeds with
today's name, return; otherwise `Close` it (returning early if `Close`
fails) — note that `h.file` keeps referencing the now-closed file — and
fall through to directory creation and open. -/
def ensureLogFile (env : FsEnv) (st : FHState) (todayName : Str) :
    FHState × Nat :=
  match st.file with
  | some f =>
    if (!f.closed && !env.statFails) && f.name = todayName then (st, 0)
    else if f.closed || env.closeFails then (st, 0)
    else ensureRest env ⟨some ⟨f.name, true⟩⟩ todayName
  | none => ensureRest env st todayName

/-- `FileHandler.Handle` after formatting: run `ensureLogFile`; if `h.file`
is non-nil, write the line and return the write's error (`os.ErrClosed`
when the handle was closed), else return nil.  Result: new state, stderr
report count, and the error returned to the caller. -/
def fileHandle (env : FsEnv) (st : FHState) (todayName : Str) :
    FHState × Nat × Option String :=
  let p := ensureLogFile env st todayName
  match p.1.file with
  | some f => (p.1, p.2, if f.closed then some "file already closed" else none)
  | none => (p.1, p.2, none)

/-! ## Retention cleanup (`FileHandler.cleanOldLogs`) -/

/-- `strings.HasPrefix`-style test: does the second list start with the
first? -/
def leadsWith : Str → Str → Bool
  | [], _ => true
  | _ :: _, [] => false
  | p :: ps, c :: cs => p = c && leadsWith ps cs

/-- `strings.HasSuffix`-style test: does the second list end with the
first? -/
def endsIn (suf l : Str) : Bool := leadsWith suf.reverse l.reverse

/-- `strings.TrimSuffix`: remove the suffix when present. -/
def trimSuffix (suf l : Str) : Str :=
  if endsIn suf l then l.take (l.length - suf.length) else l

/-- Numeric value of a decimal digit character. -/
def digitVal (c : Char) : Nat := c.toNat - 48

/-- Gregorian leap-year test (as Go's `time` package computes it). -/
def isLeap (y : Nat) : Bool := y % 4 = 0 && (y % 100 ≠ 0 || y % 400 = 0)

/-- Days in a month of a given year. -/
def daysInMonth (y m : Nat) : Nat :=
  if m = 2 then (if isLeap y then 29 else 28)
  else if m = 4 ∨ m = 6 ∨ m = 9 ∨ m = 11 then 30
  else 31

/-- `time.Parse("2006-01-02", s)`: succeeds exactly on `YYYY-MM-DD` with a
four-digit year, a two-digit month in `01..12` and a two-digit day valid
for that month and year; everything else is a parse error. -/
def parseDate (s : Str) : Option (Nat × Nat × Nat) :=
  match s with
  | [y1, y2, y3, y4, s1, m1, m2, s2, d1, d2] =>
    if y1.isDigit && y2.isDigit && y3.isDigit && y4.isDigit &&
        s1 = '-' && m1.isDigit && m2.isDigit && s2 = '-' &&
        d1.isDigit && d2.isDigit then
      let y := ((digitVal y1 * 10 + digitVal y2) * 10 + digitVal y3) * 10 + digitVal y4
      let m := digitVal m1 * 10 + digitVal m2
      let d := digitVal d1 * 10 + digitVal d2
      if 1 ≤ m && m ≤ 12 && 1 ≤ d && d ≤ daysInMonth y m then some (y, m, d)
      else none
    else none
  | _ => none

/-- Days from 1970-01-01 to the civil date `y-m-d` (proleptic Gregorian,
Hinnant's `days_from_civil`; the divisions only meet non-negative or exact
operands for the dates `parseDate` can produce). -/
def daysFromCivil (y m d : Int) : Int :=
  let y2 := if m ≤ 2 then y - 1 else y
  let era := (if 0 ≤ y2 then y2 else y2 - 399) / 400
  let yoe := y2 - era * 400
  let mp := (m + 9) % 12
  let doy := (153 * mp + 2) / 5 + d - 1
  let doe := yoe * 365 + yoe / 4 - yoe / 100 + doy
  era * 146097 + doe - 719468

/-- Seconds per civil day. -/
def secPerDay : Int := 86400

/-- The midnight-UTC instant of a parsed file date, in seconds since the
epoch (`time.Parse` without a zone yields midnight UTC). -/
def dateInstant (y m d : Nat) : Int := daysFromCivil y m d * secPerDay

/-- One `os.DirEntry` as `cleanOldLogs` sees it. -/
structure DirEntry where
  name : Str
  isDir : Bool
deriving DecidableEq

/-- `FileHandler.cleanOldLogs` at instant `now`, for a location with a
fixed offset (no DST), returning the names removed in directory order:
nothing when retention is disabled; otherwise every non-directory entry
named `<date>.log` whose parsed date (midnight UTC) is before
`cutoffDate = now.AddDate(0, 0, -retentionDays)`, i.e. before the instant
`now - retentionDays * 86400`.  All other entries are skipped. -/
def cleanOldLogs (retentionDays now : Int) (entries : List DirEntry) : List Str :=
  if retentionDays ≤ 0 then []
  else
    entries.filterMap fun e =>
      if e.isDir then none
      else if !(endsIn ['.', 'l', 'o', 'g'] e.name) then none
      else
        match parseDate (trimSuffix ['.', 'l', 'o', 'g'] e.name) with
        | none => none
        | some (y, m, d) =>
          if dateInstant y m d < now - retentionDays * secPerDay then some e.name
          else none

/-- The cleanup rule as the specification words it: with `today` the civil
date (days since the epoch) at the configured location, delete exactly the
well-formed `YYYY-MM-DD.log` regular files dated strictly before
`today - retentionDays`. -/
def specCleanOldLogs (retentionDays today : Int) (entries : List DirEntry) : List Str :=
  if retentionDays ≤ 0 then []
  else
    entries.filterMap fun e =>
      if e.isDir then none
      else if !(endsIn ['.', 'l', 'o', 'g'] e.name) then none
      else
        match parseDate (trimSuffix ['.', 'l', 'o', 'g'] e.name) with
        | none => none
        | some (y, m, d) =>
          if daysFromCivil y m d < today - retentionDays then some e.name
          else none

/-- The civil date (days since the epoch) of instant `now` at a location
with fixed offset `offset` seconds east of UTC. -/
def todayOf (offset now : Int) : Int := (now + offset).ediv secPerDay

/-! ## `.env` loading (`config.go`: `loadEnv`) -/

/-- The process environment; `none` is an unset variable.  POSIX
distinguishes a variable set to the empty string from an unset one, while
Go's `os.Getenv` returns the empty string for both. -/
abbrev Env : Type := Str → Option Str

/-- `os.Getenv`. -/
def getenvGo (env : Env) (k : Str) : Str := (env k).getD []

/-- `os.Setenv`. -/
def setenvGo (env : Env) (k v : Str) : Env :=
  fun q => if q = k then some v else env q

/-- `unicode.IsSpace` restricted to ASCII, the `strings.TrimSpace` cutset
relevant here. -/
def isSpaceGo (c : Char) : Bool :=
  c = ' ' || c = '\t' || c = '\n' || c = '\x0b' || c = '\x0c' || c = '\r'

/-- `strings.TrimSpace`. -/
def trimSpace (l : Str) : Str :=
  ((l.dropWhile isSpaceGo).reverse.dropWhile isSpaceGo).reverse

/-- `strings.SplitN(line, "=", 2)`: the part before the first `=` and the
rest, or `none` when the line contains no `=` (the `len(parts) != 2`
skip). -/
def breakAtEq : Str → Option (Str × Str)
  | [] => none
  | c :: cs =>
    if c = '=' then some ([], cs)
    else (breakAtEq cs).map fun p => (c :: p.1, p.2)

/-- Is `c` a single or double quote? -/
def isQuote (c : Char) : Bool := c = '"' || c = '\''

/-- `strings.Trim(value, "\x22'")`: strip leading and trailing quotes. -/
def trimQuotes (l : Str) : Str :=
  ((l.dropWhile isQuote).reverse.dropWhile isQuote).reverse

/-- One iteration of `loadEnv`'s scanner loop: trim the line, skip blanks
and `#` comments, split at the first `=`, trim key and value, strip quotes
from the value, and set the variable only when `os.Getenv(key)` is
empty. -/
def processLine (env : Env) (rawLine : Str) : Env :=
  let line := trimSpace rawLine
  if line = [] || leadsWith ['#'] line then env
  else
    match breakAtEq line with
    | none => env
    | some (k0, v0) =>
      let key := trimSpace k0
      let value := trimQuotes (trimSpace v0)
      if getenvGo env key = [] then setenvGo env key value else env

/-- `loadEnv`: process each line of the `.env` file in order. -/
def loadEnv (env : Env) (lines : List Str) : Env := lines.foldl processLine env

/-! ## Retention configuration (`config.go`: `init`) -/

/-- `strconv.Atoi`: optional sign then decimal digits, and the value must
fit a 64-bit int; anything else is an error (`none`). -/
def goAtoi (s : Str) : Option Int :=
  let sign : Int := match s with
    | '-' :: _ => -1
    | _ => 1
  let ds : Str := match s with
    | '+' :: rest => rest
    | '-' :: rest => rest
    | _ => s
  if ds = [] then none
  else if ds.all Char.isDigit then
    let v : Int := sign * Int.ofNat (ds.foldl (fun acc c => acc * 10 + digitVal c) 0)
    if -9223372036854775808 ≤ v && v ≤ 9223372036854775807 then some v else none
  else none

/-- The `LOG_RETENTION_DAYS` handling in `init`: start from the default 30;
when `os.Getenv` returns a non-empty string, adopt it if it parses to a
positive int, else keep 30 and print a warning.  Result: the configured
`retentionDays` and whether the warning was printed. -/
def initRetention (envVal : Option Str) : Int × Bool :=
  let s := envVal.getD []
  if s ≠ [] then
    match goAtoi s with
    | some days => if days > 0 then (days, false) else (30, true)
    | none => (30, true)
  else (30, false)

end ExtLog

namespace ExtLog

/-! ## Helper lemmas -/

theorem noEsc_append {a b : Str} (ha : noEsc a) (hb : noEsc b) :
    noEsc (a ++ b) := by
  intro c hc
  rcases List.mem_append.mp hc with h | h
  · exact ha c h
  · exact hb c h

theorem noNl_append {a b : Str} (ha : noNl a) (hb : noNl b) :
    noNl (a ++ b) := by
  intro c hc
  rcases List.mem_append.mp hc with h | h
  · exact ha c h
  · exact hb c h

theorem countNl_append (a b : Str) : countNl (a ++ b) = countNl a + countNl b :=
  List.countP_append _ _ _

theorem countNl_eq_zero {l : Str} (h : noNl l) : countNl l = 0 := by
  rw [countNl, List.countP_eq_zero]
  intro c hc
  simpa using h c hc

theorem digitChar_clean (n : Nat) (h : n < 10) :
    digitChar n ≠ '\x1b' ∧ digitChar n ≠ '\n' := by
  interval_cases n <;> exact ⟨by decide, by decide⟩

theorem natDigitsAux_clean (fuel : Nat) :
    ∀ n, ∀ c ∈ natDigitsAux fuel n, c ≠ '\x1b' ∧ c ≠ '\n' := by
  induction fuel with
  | zero =>
    intro n c hc
    simp [natDigitsAux] at hc
  | succ fuel ih =>
    intro n c hc
    unfold natDigitsAux at hc
    by_cases h : n < 10
    · rw [if_pos h] at hc
      simp only [List.mem_singleton] at hc
      subst hc
      exact digitChar_clean n h
    · rw [if_neg h] at hc
      rcases List.mem_append.mp hc with h1 | h2
      · exact ih _ c h1
      · simp only [List.mem_singleton] at h2
        subst h2
        exact digitChar_clean (n % 10) (Nat.mod_lt _ (by omega))

theorem padZero_clean (w n : Nat) :
    ∀ c ∈ padZero w n, c ≠ '\x1b' ∧ c ≠ '\n' := by
  intro c hc
  rcases List.mem_append.mp hc with h | h
  · have := List.eq_of_mem_replicate h
    subst this
    exact ⟨by decide, by decide⟩
  · exact natDigitsAux_clean _ _ c h

theorem formatTimestamp_clean (t : DateTime) :
    ∀ c ∈ formatTimestamp t, c ≠ '\x1b' ∧ c ≠ '\n' := by
  intro c hc
  unfold formatTimestamp at hc
  simp only [List.append_assoc, List.mem_append, List.mem_singleton] at hc
  rcases hc with h | h | h | h | h | h | h | h | h | h | h | h | h
  all_goals first
    | exact padZero_clean _ _ _ h
    | (subst h; exact ⟨by decide, by decide⟩)

theorem levelToken_clean (lvl : GoLevel) :
    ∀ c ∈ pad5 (levelString lvl), c ≠ '\x1b' ∧ c ≠ '\n' := by
  cases lvl <;> decide

theorem stripAnsiAux_false_append_clean (a : Str) (b : Str) (ha : noEsc a) :
    stripAnsiAux false (a ++ b) = a ++ stripAnsiAux false b := by
  induction a with
  | nil => rfl
  | cons c cs ih =>
    have hc : c ≠ '\x1b' := ha c (List.mem_cons_self _ _)
    have ha' : noEsc cs := fun x hx => ha x (List.mem_cons_of_mem _ hx)
    simp only [List.cons_append, stripAnsiAux, if_neg hc, List.append_eq]
    rw [ih ha']

theorem stripAnsiAux_false_clean (a : Str) (ha : noEsc a) :
    stripAnsiAux false a = a := by
  have := stripAnsiAux_false_append_clean a [] ha
  simpa [stripAnsiAux] using this

theorem strip_reset (rest : Str) (hr : noEsc rest) :
    stripAnsiAux false ('\x1b' :: '[' :: '0' :: 'm' :: rest) = rest := by
  have h1 : stripAnsiAux false ('\x1b' :: '[' :: '0' :: 'm' :: rest)
      = stripAnsiAux false rest := by
    simp [stripAnsiAux]
  rw [h1, stripAnsiAux_false_clean rest hr]

theorem strip_wrap (c1 c2 : Char) (h1 : c1 ≠ 'm') (h2 : c2 ≠ 'm')
    (plain rest : Str) (hp : noEsc plain) (hr : noEsc rest) :
    stripAnsiAux false ('\x1b' :: '[' :: c1 :: c2 :: 'm' ::
      (plain ++ ('\x1b' :: '[' :: '0' :: 'm' :: rest))) = plain ++ rest := by
  have hstep : stripAnsiAux false ('\x1b' :: '[' :: c1 :: c2 :: 'm' ::
      (plain ++ ('\x1b' :: '[' :: '0' :: 'm' :: rest)))
      = stripAnsiAux false (plain ++ ('\x1b' :: '[' :: '0' :: 'm' :: rest)) := by
    simp [stripAnsiAux, h1, h2]
  rw [hstep, stripAnsiAux_false_append_clean plain _ hp, strip_reset rest hr]

theorem strip_mid (lvl : GoLevel) (z : Str) (hz : noEsc z) :
    stripAnsiAux false (consoleLevelText lvl ++ z) = pad5 (levelString lvl) ++ z := by
  cases lvl with
  | debug =>
    rw [show consoleLevelText GoLevel.debug = ['D', 'E', 'B', 'U', 'G'] from rfl,
      stripAnsiAux_false_append_clean ['D', 'E', 'B', 'U', 'G'] z (by decide),
      stripAnsiAux_false_clean z hz]
    rfl
  | info =>
    have hform : consoleLevelText GoLevel.info ++ z =
        '\x1b' :: '[' :: '3' :: '6' :: 'm' ::
          (['I', 'N', 'F', 'O', ' '] ++ ('\x1b' :: '[' :: '0' :: 'm' :: z)) := rfl
    rw [hform, strip_wrap '3' '6' (by decide) (by decide) _ z (by decide) hz]
    rfl
  | warn =>
    have hform : consoleLevelText GoLevel.warn ++ z =
        '\x1b' :: '[' :: '3' :: '3' :: 'm' ::
          (['W', 'A', 'R', 'N', ' '] ++ ('\x1b' :: '[' :: '0' :: 'm' :: z)) := rfl
    rw [hform, strip_wrap '3' '3' (by decide) (by decide) _ z (by decide) hz]
    rfl
  | error =>
    have hform : consoleLevelText GoLevel.error ++ z =
        '\x1b' :: '[' :: '3' :: '1' :: 'm' ::
          (['E', 'R', 'R', 'O', 'R'] ++ ('\x1b' :: '[' :: '0' :: 'm' :: z)) := rfl
    rw [hform, strip_wrap '3' '1' (by decide) (by decide) _ z (by decide) hz]
    rfl

theorem strip_renderLine (ts : Str) (lvl : GoLevel) (sc : Bool)
    (caller msg : Str) (hts : noEsc ts) (hcal : noEsc caller) (hmsg : noEsc msg) :
    stripAnsi (renderLine ts (consoleLevelText lvl) sc caller msg) =
      renderLine ts (pad5 (levelString lvl)) sc caller msg := by
  cases sc with
  | false =>
    have hz : noEsc ([' ', '|', ' '] ++ (msg ++ ['\n'])) :=
      noEsc_append (by decide) (noEsc_append hmsg (by decide))
    show stripAnsiAux false
        (ts ++ [' ', '|', ' '] ++ consoleLevelText lvl ++ [' ', '|', ' '] ++ msg ++ ['\n']) =
      ts ++ [' ', '|', ' '] ++ pad5 (levelString lvl) ++ [' ', '|', ' '] ++ msg ++ ['\n']
    simp only [List.append_assoc]
    rw [stripAnsiAux_false_append_clean ts _ hts,
      stripAnsiAux_false_append_clean [' ', '|', ' '] _ (by decide),
      strip_mid lvl _ hz]
  | true =>
    have hz : noEsc ([' ', '|', ' ', '['] ++ (caller ++ ([']', ' '] ++ (msg ++ ['\n'])))) :=
      noEsc_append (by decide)
        (noEsc_append hcal (noEsc_append (by decide) (noEsc_append hmsg (by decide))))
    show stripAnsiAux false
        (ts ++ [' ', '|', ' '] ++ consoleLevelText lvl ++ [' ', '|', ' ', '['] ++
          caller ++ [']', ' '] ++ msg ++ ['\n']) =
      ts ++ [' ', '|', ' '] ++ pad5 (levelString lvl) ++ [' ', '|', ' ', '['] ++
        caller ++ [']', ' '] ++ msg ++ ['\n']
    simp only [List.append_assoc]
    rw [stripAnsiAux_false_append_clean ts _ hts,
      stripAnsiAux_false_append_clean [' ', '|', ' '] _ (by decide),
      strip_mid lvl _ hz]

/-! ## Theorems -/

/-- C1: for every threshold `T` held by the shared level gate and every
level `L`, both `ConsoleHandler.Enabled` and `FileHandler.Enabled` admit a
record at level `L` if and only if `L ≥ T`, and the two checks agree. -/
theorem console_file_enabled_iff_threshold (T L : Int) :
    (consoleEnabled T L = true ↔ L ≥ T) ∧
    (fileEnabled T L = true ↔ L ≥ T) ∧
    consoleEnabled T L = fileEnabled T L := by
  simp [consoleEnabled, fileEnabled]

/-- C9: the writer adapters return `n = len(p)` with a nil error, and the
four `*Fprintf` functions return the formatted message's length with a nil
error, at every level: this surface never reports a failure. -/
theorem writer_adapters_never_fail :
    (∀ (lvl : GoLevel) (p : List UInt8),
      (logWriterWrite lvl p).2 = ⟨p.length, none⟩) ∧
    (∀ (lvl : GoLevel) (msg : List UInt8),
      (levelFprintf lvl msg).2 = ⟨msg.length, none⟩) := by
  exact ⟨fun _ _ => rfl, fun _ _ => rfl⟩

/-- C2 counterexample: for a message that itself contains an ANSI escape
sequence, stripping all escape sequences from the console line also removes
the one inside the message, while the file line keeps it — the two lines
are not byte-identical. -/
theorem strip_colored_ne_file_on_escape_message :
    stripAnsi (consoleHandleLine ⟨2025, 1, 10, 12, 0, 0, 0⟩ GoLevel.info false []
        ['\x1b', '[', '0', 'm', 'x']) ≠
      fileHandleLine ⟨2025, 1, 10, 12, 0, 0, 0⟩ GoLevel.info false []
        ['\x1b', '[', '0', 'm', 'x'] := by
  decide

/-- C2 (amended): for every timestamp, level, caller-display flag, caller
and message, provided the caller and the message contain no ESC character,
the file handler's line equals the console handler's line with all ANSI
escape sequences removed. -/
theorem file_line_eq_strip_console_line (t : DateTime) (lvl : GoLevel)
    (sc : Bool) (caller msg : Str) (hcal : noEsc caller) (hmsg : noEsc msg) :
    stripAnsi (consoleHandleLine t lvl sc caller msg) =
      fileHandleLine t lvl sc caller msg :=
  strip_renderLine (formatTimestamp t) lvl sc caller msg
    (fun c hc => (formatTimestamp_clean t c hc).1) hcal hmsg

/-- C2 witness: the amended equality at a concrete timestamp, level,
caller and message. -/
theorem file_line_eq_strip_console_line_witness :
    stripAnsi (consoleHandleLine ⟨2025, 1, 10, 12, 0, 0, 0⟩ GoLevel.warn true
        ['a', ':', '3'] ['h', 'i']) =
      fileHandleLine ⟨2025, 1, 10, 12, 0, 0, 0⟩ GoLevel.warn true
        ['a', ':', '3'] ['h', 'i'] :=
  file_line_eq_strip_console_line ⟨2025, 1, 10, 12, 0, 0, 0⟩ GoLevel.warn true
    ['a', ':', '3'] ['h', 'i'] (by decide) (by decide)

/-- C6 counterexample: a message containing a newline makes the file
handler's output contain two newline characters, so the written record is
not a single line terminated by exactly one newline. -/
theorem file_line_newline_message_two_lines :
    countNl (fileHandleLine ⟨2025, 1, 10, 12, 0, 0, 0⟩ GoLevel.info false []
      ['a', '\n', 'b']) = 2 := by
  decide

/-- C6 (amended): provided the message and the caller contain no newline
and no ESC character, the file handler writes
`timestamp | LEVEL | [caller ]message` terminated by exactly one newline,
with the level token padded to five characters, no escape codes, and the
caller segment present iff caller display is enabled. -/
theorem file_line_single_line_format (t : DateTime) (lvl : GoLevel) (sc : Bool)
    (caller msg : Str) (hcalE : noEsc caller) (hcalN : noNl caller)
    (hmsgE : noEsc msg) (hmsgN : noNl msg) :
    fileHandleLine t lvl sc caller msg =
      formatTimestamp t ++ [' ', '|', ' '] ++ pad5 (levelString lvl) ++
        [' ', '|', ' '] ++ (if sc then ['['] ++ caller ++ [']', ' '] else []) ++
        msg ++ ['\n'] ∧
    countNl (fileHandleLine t lvl sc caller msg) = 1 ∧
    (∃ pre, fileHandleLine t lvl sc caller msg = pre ++ ['\n'] ∧ noNl pre) ∧
    noEsc (fileHandleLine t lvl sc caller msg) ∧
    (pad5 (levelString lvl)).length = 5 := by
  have htsE : noEsc (formatTimestamp t) := fun c hc => (formatTimestamp_clean t c hc).1
  have htsN : noNl (formatTimestamp t) := fun c hc => (formatTimestamp_clean t c hc).2
  have hltE : noEsc (pad5 (levelString lvl)) := fun c hc => (levelToken_clean lvl c hc).1
  have hltN : noNl (pad5 (levelString lvl)) := fun c hc => (levelToken_clean lvl c hc).2
  have hsegE : noEsc (if sc then ['['] ++ caller ++ [']', ' '] else []) := by
    cases sc
    · intro c hc; simp at hc
    · exact noEsc_append (noEsc_append (by decide) hcalE) (by decide)
  have hsegN : noNl (if sc then ['['] ++ caller ++ [']', ' '] else []) := by
    cases sc
    · intro c hc; simp at hc
    · exact noNl_append (noNl_append (by decide) hcalN) (by decide)
  have h1 : fileHandleLine t lvl sc caller msg =
      formatTimestamp t ++ [' ', '|', ' '] ++ pad5 (levelString lvl) ++
        [' ', '|', ' '] ++ (if sc then ['['] ++ caller ++ [']', ' '] else []) ++
        msg ++ ['\n'] := by
    cases sc <;> simp [fileHandleLine, renderLine, List.append_assoc]
  have hPN : noNl (formatTimestamp t ++ [' ', '|', ' '] ++ pad5 (levelString lvl) ++
      [' ', '|', ' '] ++ (if sc then ['['] ++ caller ++ [']', ' '] else []) ++ msg) :=
    noNl_append (noNl_append (noNl_append (noNl_append
      (noNl_append htsN (by decide)) hltN) (by decide)) hsegN) hmsgN
  have hPE : noEsc (formatTimestamp t ++ [' ', '|', ' '] ++ pad5 (levelString lvl) ++
      [' ', '|', ' '] ++ (if sc then ['['] ++ caller ++ [']', ' '] else []) ++ msg) :=
    noEsc_append (noEsc_append (noEsc_append (noEsc_append
      (noEsc_append htsE (by decide)) hltE) (by decide)) hsegE) hmsgE
  refine ⟨h1, ?_, ⟨_, h1, hPN⟩, ?_, ?_⟩
  · rw [h1, countNl_append, countNl_eq_zero hPN]
    rfl
  · rw [h1]
    exact noEsc_append hPE (by decide)
  · cases lvl <;> decide

/-- C6 witness: the amended format facts at a concrete timestamp, level,
caller and message. -/
theorem file_line_single_line_format_witness :
    countNl (fileHandleLine ⟨2025, 1, 10, 12, 0, 0, 0⟩ GoLevel.warn true
      ['a', ':', '3'] ['o', 'k']) = 1 :=
  (file_line_single_line_format ⟨2025, 1, 10, 12, 0, 0, 0⟩ GoLevel.warn true
    ['a', ':', '3'] ['o', 'k'] (by decide) (by decide) (by decide) (by decide)).2.1

/-- C4 counterexample: with two handlers both enabled at the record's
level, the first returning an error from `Handle`, the second handler never
receives the record — `MultiHandler.Handle` returns the first error and
stops, contrary to the claim that delivery continues. -/
theorem multi_handle_stops_after_error :
    (SimHandler.enabledAt ⟨fun _ => true, none⟩ 0 = true) ∧
    (multiHandle [⟨fun _ => true, some "disk full"⟩, ⟨fun _ => true, none⟩] 0).1
      = [0] ∧
    1 ∉ (multiHandle [⟨fun _ => true, some "disk full"⟩, ⟨fun _ => true, none⟩] 0).1 := by
  exact ⟨rfl, rfl, by decide⟩

/-- C4 (amended): `MultiHandler.Handle` calls a handler's `Handle` exactly
when that handler is enabled at the record's level and every earlier
enabled handler's `Handle` returned a nil error; the first non-nil error
stops the dispatch. -/
theorem multi_handle_delivered_iff (hs : List SimHandler) (lvl : Int) (i : Nat) :
    i ∈ (multiHandle hs lvl).1 ↔
      (∃ h, hs.get? i = some h ∧ h.enabledAt lvl = true) ∧
      (∀ j, j < i → ∀ g, hs.get? j = some g → g.enabledAt lvl = true →
        g.handleErr = none) := by
  induction hs generalizing i with
  | nil => simp [multiHandle]
  | cons h rest ih =>
    by_cases he : h.enabledAt lvl = true
    · cases herr : h.handleErr with
      | some e =>
        simp only [multiHandle, if_pos he, herr]
        cases i with
        | zero =>
          constructor
          · intro _
            exact ⟨⟨h, rfl, he⟩, fun j hj => absurd hj (Nat.not_lt_zero j)⟩
          · intro _
            exact List.mem_cons_self 0 _
        | succ n =>
          constructor
          · intro hmem; simp at hmem
          · rintro ⟨-, hall⟩
            have hnone := hall 0 (Nat.succ_pos n) h (by simp) he
            rw [herr] at hnone
            cases hnone
      | none =>
        simp only [multiHandle, if_pos he, herr]
        cases i with
        | zero =>
          constructor
          · intro _
            exact ⟨⟨h, rfl, he⟩, fun j hj => absurd hj (Nat.not_lt_zero j)⟩
          · intro _
            exact List.mem_cons_self 0 _
        | succ n =>
          have lhs_iff :
              n + 1 ∈ 0 :: ((multiHandle rest lvl).1.map (· + 1)) ↔
                n ∈ (multiHandle rest lvl).1 := by
            constructor
            · intro hmem
              rcases List.mem_cons.mp hmem with hz | hmap
              · omega
              · rcases List.mem_map.mp hmap with ⟨a, ha, haa⟩
                have : a = n := by omega
                exact this ▸ ha
            · intro hn
              exact List.mem_cons.mpr (Or.inr (List.mem_map.mpr ⟨n, hn, rfl⟩))
          rw [lhs_iff, ih n]
          constructor
          · rintro ⟨hex, hall⟩
            refine ⟨by simpa using hex, ?_⟩
            intro j hj g hg hge
            cases j with
            | zero =>
              have : g = h := by simpa using hg.symm
              rw [this, herr]
            | succ k =>
              exact hall k (by omega) g (by simpa using hg) hge
          · rintro ⟨hex, hall⟩
            exact ⟨by simpa using hex,
              fun j hj g hg hge => hall (j + 1) (by omega) g (by simpa using hg) hge⟩
    · simp only [multiHandle, if_neg he]
      cases i with
      | zero =>
        constructor
        · intro hmem
          rcases List.mem_map.mp hmem with ⟨a, -, ha⟩
          omega
        · rintro ⟨⟨g, hg, hge⟩, -⟩
          have : g = h := by simpa using hg.symm
          rw [this] at hge
          exact absurd hge he
      | succ n =>
        have lhs_iff :
            n + 1 ∈ (multiHandle rest lvl).1.map (· + 1) ↔
              n ∈ (multiHandle rest lvl).1 := by
          constructor
          · intro hmem
            rcases List.mem_map.mp hmem with ⟨a, ha, haa⟩
            have : a = n := by omega
            exact this ▸ ha
          · intro hn
            exact List.mem_map.mpr ⟨n, hn, rfl⟩
        rw [lhs_iff, ih n]
        constructor
        · rintro ⟨hex, hall⟩
          refine ⟨by simpa using hex, ?_⟩
          intro j hj g hg hge
          cases j with
          | zero =>
            have : g = h := by simpa using hg.symm
            rw [this] at hge
            exact absurd hge he
          | succ k =>
            exact hall k (by omega) g (by simpa using hg) hge
        · rintro ⟨hex, hall⟩
          exact ⟨by simpa using hex,
            fun j hj g hg hge => hall (j + 1) (by omega) g (by simpa using hg) hge⟩

/-- C5: when no file handle is held, a directory-creation failure makes the
write drop the record with exactly one stderr report and a nil error, as
claimed.  But on a date rollover (a previous day's file is open), the same
failure leaves `h.file` pointing at the just-closed file, and `Handle`
returns the write-to-closed-file error to its caller — contradicting the
claim that no error is propagated. -/
theorem rollover_mkdir_failure_returns_write_error :
    (fileHandle ⟨false, false, true, false⟩ ⟨some ⟨"2025-01-09.log".data, false⟩⟩
        "2025-01-10.log".data).2.1 = 1 ∧
    (fileHandle ⟨false, false, true, false⟩ ⟨some ⟨"2025-01-09.log".data, false⟩⟩
        "2025-01-10.log".data).2.2 ≠ none ∧
    (fileHandle ⟨false, false, true, false⟩ ⟨none⟩ "2025-01-10.log".data).2.1 = 1 ∧
    (fileHandle ⟨false, false, true, false⟩ ⟨none⟩ "2025-01-10.log".data).2.2 = none := by
  exact ⟨by decide, by decide, by decide, by decide⟩

/-- C3 counterexample: retention 7 days, `now` = epoch day 10 at 12:00 UTC
(zero zone offset): the code deletes `1970-01-04.log`, dated exactly
`today - 7`, because `cutoffDate = now.AddDate(0,0,-7)` keeps the
time of day; the claim (delete only dates strictly before `today - 7`)
leaves that file untouched. -/
theorem cleanup_deletes_boundary_date_file :
    cleanOldLogs 7 907200 [⟨"1970-01-04.log".data, false⟩] =
      ["1970-01-04.log".data] ∧
    specCleanOldLogs 7 (todayOf 0 907200) [⟨"1970-01-04.log".data, false⟩] = [] ∧
    todayOf 0 907200 = 10 ∧
    parseDate "1970-01-04".data = some (1970, 1, 4) ∧
    daysFromCivil 1970 1 4 = 3 := by
  exact ⟨by decide, by decide, by decide, by decide, by decide⟩

theorem cleanup_entry_some (retentionDays now : Int) (e : DirEntry) (name : Str) :
    (if e.isDir then none
     else if !(endsIn ['.', 'l', 'o', 'g'] e.name) then none
     else
       match parseDate (trimSuffix ['.', 'l', 'o', 'g'] e.name) with
       | none => none
       | some (y, m, d) =>
         if dateInstant y m d < now - retentionDays * secPerDay then some e.name
         else none) = some name ↔
      e.isDir = false ∧ endsIn ['.', 'l', 'o', 'g'] e.name = true ∧
      ∃ y m d, parseDate (trimSuffix ['.', 'l', 'o', 'g'] e.name) = some (y, m, d) ∧
        dateInstant y m d < now - retentionDays * secPerDay ∧ e.name = name := by
  constructor
  · intro hf
    split at hf
    · cases hf
    · split at hf
      · cases hf
      · rename_i h1 h2
        split at hf
        · cases hf
        · rename_i y m d hp
          split at hf
          · rename_i h3
            refine ⟨by simpa using h1, by simpa using h2, y, m, d, hp, h3, ?_⟩
            exact Option.some_injective _ hf
          · cases hf
  · rintro ⟨h1, h2, y, m, d, hp, h3, hname⟩
    subst hname
    rw [if_neg (by simp [h1]), if_neg (by simp [h2]), hp]
    show (if dateInstant y m d < now - retentionDays * secPerDay then some e.name
      else none) = some e.name
    rw [if_pos h3]

/-- C3 (amended): with positive retention, cleanup removes exactly the
non-directory entries named by a well-formed `YYYY-MM-DD.log` date whose
midnight-UTC instant is strictly before the instant `now` minus
`retentionDays` days — which also covers the file dated exactly
`today - retentionDays` once the clock is past midnight UTC; every other
entry is untouched, and `retentionDays ≤ 0` deletes nothing. -/
theorem cleanup_deleted_iff_instant_cutoff (retentionDays now : Int)
    (entries : List DirEntry) (name : Str) :
    (retentionDays ≤ 0 → cleanOldLogs retentionDays now entries = []) ∧
    (name ∈ cleanOldLogs retentionDays now entries ↔
      0 < retentionDays ∧ ∃ e ∈ entries, e.isDir = false ∧
        endsIn ['.', 'l', 'o', 'g'] e.name = true ∧
        ∃ y m d, parseDate (trimSuffix ['.', 'l', 'o', 'g'] e.name) = some (y, m, d) ∧
          dateInstant y m d < now - retentionDays * secPerDay ∧ e.name = name) := by
  constructor
  · intro h
    rw [cleanOldLogs, if_pos h]
  · by_cases hN : retentionDays ≤ 0
    · rw [cleanOldLogs, if_pos hN]
      constructor
      · intro h
        exact absurd h (List.not_mem_nil name)
      · rintro ⟨hpos, -⟩
        omega
    · rw [cleanOldLogs, if_neg hN, List.mem_filterMap]
      constructor
      · rintro ⟨e, he, hfe⟩
        exact ⟨by omega, e, he, (cleanup_entry_some retentionDays now e name).mp hfe⟩
      · rintro ⟨-, e, he, hrest⟩
        exact ⟨e, he, (cleanup_entry_some retentionDays now e name).mpr hrest⟩

/-- C3 witness: disabled retention deletes nothing, and a file strictly
older than the cutoff is removed. -/
theorem cleanup_deleted_iff_instant_cutoff_witness :
    cleanOldLogs (-3) 907200 [⟨"1970-01-04.log".data, false⟩] = [] ∧
    "1970-01-05.log".data ∈
      cleanOldLogs 7 993600 [⟨"1970-01-05.log".data, false⟩] := by
  constructor
  · exact (cleanup_deleted_iff_instant_cutoff (-3) 907200
      [⟨"1970-01-04.log".data, false⟩] []).1 (by decide)
  · exact (cleanup_deleted_iff_instant_cutoff 7 993600
      [⟨"1970-01-05.log".data, false⟩] "1970-01-05.log".data).2.mpr
      ⟨by decide, ⟨"1970-01-05.log".data, false⟩, by decide, rfl, by decide,
        1970, 1, 5, by decide, by decide, rfl⟩

/-- C7 counterexample: a variable present in the environment with the
empty value is overridden from the `.env` file, because the code guards
with `os.Getenv(key) == ""`, which cannot distinguish present-but-empty
from unset. -/
theorem load_env_overrides_empty_present_var :
    (fun k => if k = ['K'] then some ([] : Str) else none : Env) ['K'] = some [] ∧
    loadEnv (fun k => if k = ['K'] then some ([] : Str) else none)
      [['K', '=', 'v']] ['K'] = some ['v'] := by
  exact ⟨rfl, by decide⟩

/-- C7 (amended): loading the `.env` file never changes a variable whose
current value is non-empty; only unset or present-but-empty variables can
be written. -/
theorem load_env_preserves_nonempty_vars (lines : List Str) (env : Env)
    (k v : Str) (hv : env k = some v) (hne : v ≠ []) :
    loadEnv env lines k = some v := by
  induction lines generalizing env with
  | nil => exact hv
  | cons line rest ih =>
    show loadEnv (processLine env line) rest k = some v
    apply ih
    unfold processLine
    split
    · exact hv
    · cases hbk : breakAtEq (trimSpace line) with
      | none =>
        exact hv
      | some kv =>
        obtain ⟨k0, v0⟩ := kv
        show (if getenvGo env (trimSpace k0) = [] then
            setenvGo env (trimSpace k0) (trimQuotes (trimSpace v0)) else env) k = some v
        by_cases hempty : getenvGo env (trimSpace k0) = []
        · rw [if_pos hempty]
          show (if k = trimSpace k0 then some (trimQuotes (trimSpace v0))
            else env k) = some v
          rw [if_neg]
          · exact hv
          · intro hkk
            have hval : getenvGo env k = v := by
              unfold getenvGo
              rw [hv]
              rfl
            rw [hkk, hempty] at hval
            exact hne hval.symm
        · rw [if_neg hempty]
          exact hv

/-- C7 witness: a non-empty variable survives loading a file that tries to
override it. -/
theorem load_env_preserves_nonempty_vars_witness :
    loadEnv (fun k => if k = ['A'] then some ['x'] else none)
      [['A', '=', 'y'], ['B', '=', '1']] ['A'] = some ['x'] :=
  load_env_preserves_nonempty_vars [['A', '=', 'y'], ['B', '=', '1']]
    (fun k => if k = ['A'] then some ['x'] else none) ['A'] ['x']
    (by decide) (by decide)

/-- C8 counterexample: `LOG_RETENTION_DAYS` set to the empty string is a
set value that is not a positive integer, yet `init` keeps the default 30
without printing a warning, because `os.Getenv` returning `""` is treated
as unset. -/
theorem retention_empty_value_no_warning :
    initRetention (some []) = (30, false) ∧ goAtoi [] = none := by
  exact ⟨rfl, rfl⟩

/-- C8 (amended): an unset or empty `LOG_RETENTION_DAYS` yields the
default 30 with no warning; a non-empty value parsed by `strconv.Atoi` to
a positive int (within the 64-bit range) is adopted with no warning; any
other non-empty value (non-numeric, zero, negative, or out of range)
yields 30 with a warning. -/
theorem retention_parse_characterization :
    initRetention none = (30, false) ∧
    initRetention (some []) = (30, false) ∧
    (∀ s d, goAtoi s = some d → 0 < d → initRetention (some s) = (d, false)) ∧
    (∀ s d, goAtoi s = some d → d ≤ 0 → initRetention (some s) = (30, true)) ∧
    (∀ s, s ≠ [] → goAtoi s = none → initRetention (some s) = (30, true)) := by
  have hnil : goAtoi [] = none := rfl
  refine ⟨rfl, rfl, ?_, ?_, ?_⟩
  · intro s d hp hpos
    have hs : s ≠ [] := by
      intro h
      rw [h, hnil] at hp
      cases hp
    have hred : initRetention (some s) =
        if s ≠ [] then
          (match goAtoi s with
            | some days => if days > 0 then (days, false) else (30, true)
            | none => (30, true))
        else (30, false) := rfl
    rw [hred, if_pos hs, hp]
    show (if d > 0 then (d, false) else (30, true)) = (d, false)
    rw [if_pos hpos]
  · intro s d hp hle
    have hs : s ≠ [] := by
      intro h
      rw [h, hnil] at hp
      cases hp
    have hred : initRetention (some s) =
        if s ≠ [] then
          (match goAtoi s with
            | some days => if days > 0 then (days, false) else (30, true)
            | none => (30, true))
        else (30, false) := rfl
    rw [hred, if_pos hs, hp]
    show (if d > 0 then (d, false) else (30, true)) = (30, true)
    rw [if_neg (by omega)]
  · intro s hs hp
    have hred : initRetention (some s) =
        if s ≠ [] then
          (match goAtoi s with
            | some days => if days > 0 then (days, false) else (30, true)
            | none => (30, true))
        else (30, false) := rfl
    rw [hred, if_pos hs, hp]

/-- C8 witness: a positive value is adopted; zero, a negative value and a
non-numeric value warn and keep 30. -/
theorem retention_parse_characterization_witness :
    initRetention (some ['7']) = (7, false) ∧
    initRetention (some ['-', '2']) = (30, true) ∧
    initRetention (some ['0']) = (30, true) ∧
    initRetention (some ['x']) = (30, true) := by
  refine ⟨retention_parse_characterization.2.2.1 ['7'] 7 (by decide) (by decide),
    retention_parse_characterization.2.2.2.1 ['-', '2'] (-2) (by decide) (by decide),
    retention_parse_characterization.2.2.2.1 ['0'] 0 (by decide) (by decide),
    retention_parse_characterization.2.2.2.2 ['x'] (by decide) (by decide)⟩

/-- C10: `Trace`/`Tracef` emit at debug level, `Fatal`/`Fatalf` emit at
error level, and no public entry point produces a record whose rendered
level token is `TRACE` or `FATAL`. -/
theorem trace_fatal_levels_folded :
    emittedLevel .traceCall = .debug ∧ emittedLevel .tracefCall = .debug ∧
    emittedLevel .fatal = .error ∧ emittedLevel .fatalf = .error ∧
    ∀ c : ApiCall,
      levelString (emittedLevel c) ≠ ['T', 'R', 'A', 'C', 'E'] ∧
      levelString (emittedLevel c) ≠ ['F', 'A', 'T', 'A', 'L'] := by
  refine ⟨rfl, rfl, rfl, rfl, ?_⟩
  intro c
  cases c <;> exact ⟨by decide, by decide⟩

end ExtLog
